import Mathlib

/-!
Verification of the Canvas Grabber downloader (`canvas_grabber.py`).

The Python source is shallowly embedded below.  Pure helpers
(`find_file_ids_in_html`, `sanitize`, `parse_choices`, the `Link`-header
parsing inside `get_all`) become Lean functions over `String` / `List Char`;
the network is an explicit environment (a function from request to
response), HTTP exceptions become `Except`, and the `while url:` pagination
loop, whose termination is not guaranteed by the code, is modelled with an
explicit iteration bound (`none` = the bound was exhausted, i.e. the real
loop would still be running).

Regex scanning (`re.finditer`) is embedded as a left-to-right,
non-overlapping scanner specialised to the two fixed patterns of the
source, `/files/(\d+)` and `/api/v1/files/(\d+)`: at each position, if the
literal pattern matches and at least one digit follows, the maximal digit
run is captured and scanning resumes after it; otherwise scanning advances
one character.  The scanner carries a fuel argument equal to the input
length so that it is structurally recursive (each step consumes at least
one character, so that fuel is always sufficient).
-/

namespace CanvasGrabber

/-! ## Page-body scraper (`find_file_ids_in_html`, lines 119-136) -/

/-- Numeric value of a digit string, as produced by Python `int` on the
captured group of `(\d+)`. -/
def natOfDigits (ds : List Char) : Nat :=
  ds.foldl (fun a c => 10 * a + (c.toNat - 48)) 0

/-- Maximal leading digit run: the text captured by a greedy `(\d+)`. -/
def takeDigits : List Char → List Char
  | [] => []
  | c :: cs => if c.isDigit then c :: takeDigits cs else []

/-- One `re.finditer(pat ++ "(\d+)", ·)` pass: left-to-right, non-overlapping,
greedy digit capture.  `fuel` is an upper bound on the number of scanning
steps; `scanIds` below always supplies enough. -/
def scanIdsF (pat : List Char) : Nat → List Char → List Nat
  | 0, _ => []
  | _, [] => []
  | fuel + 1, c :: cs =>
    if pat.isPrefixOf (c :: cs) && !(takeDigits ((c :: cs).drop pat.length)).isEmpty then
      natOfDigits (takeDigits ((c :: cs).drop pat.length)) ::
        scanIdsF pat fuel
          (((c :: cs).drop pat.length).drop (takeDigits ((c :: cs).drop pat.length)).length)
    else
      scanIdsF pat fuel cs

/-- All values captured by `pat ++ "(\d+)"` over the whole input. -/
def scanIds (pat : List Char) (l : List Char) : List Nat :=
  scanIdsF pat l.length l

def filesPat : List Char := "/files/".data

def apiPat : List Char := "/api/v1/files/".data

/-- Lines 119-136: union of the ids captured by the two regexes
(`int` on an all-digit capture never raises, so the `try/except` around it
is dead code). -/
def find_file_ids_in_html (html : String) : Finset Nat :=
  (scanIds filesPat html.data).toFinset ∪ (scanIds apiPat html.data).toFinset

/-- `true` iff the list does not start with a digit (so a greedy digit run
ending right before it is maximal). -/
def noDigitHead (l : List Char) : Bool :=
  match l.head? with
  | none => true
  | some c => !c.isDigit

/-- Declarative occurrence: the input contains `pat` followed by a nonempty
maximal digit run whose numeric value is `n`.  This is the spec-side reading
of "an occurrence of `<pat><digits>`", insensitive to what follows the
digits. -/
def OccursId (pat : List Char) (n : Nat) (l : List Char) : Prop :=
  ∃ pre ds post, l = pre ++ pat ++ ds ++ post ∧ ds ≠ [] ∧
    ds.all Char.isDigit = true ∧ noDigitHead post = true ∧ natOfDigits ds = n

/-- Conditions on a literal pattern guaranteeing that occurrences of
`pat ++ digits` cannot overlap, so the non-overlapping `finditer` scan
finds every occurrence: the pattern does not start with a digit, and any
self-overlap (a proper shift `k` of the pattern matching its own prefix)
would force a pattern character into the digit run.  Both patterns of the
source satisfy this (checked by `decide`). -/
def GoodPat (pat : List Char) : Prop :=
  pat ≠ [] ∧ noDigitHead pat = true ∧
  ∀ k, k < pat.length → 0 < k → pat.drop k = pat.take (pat.length - k) →
    noDigitHead (pat.drop (pat.length - k)) = true

instance (pat : List Char) : Decidable (GoodPat pat) := by
  unfold GoodPat; infer_instance

/-! ## String helpers: Python `str.strip` and `int` -/

/-- Python `str.strip(bad)` on the left: drop leading characters in `bad`. -/
def stripLeft (bad : List Char) (l : List Char) : List Char :=
  l.dropWhile (fun c => decide (c ∈ bad))

/-- Python `str.strip(bad)` on the right: drop trailing characters in `bad`. -/
def stripRight (bad : List Char) (l : List Char) : List Char :=
  (stripLeft bad l.reverse).reverse

/-- Python `s.strip(bad)`: removes the characters of `bad` from both ends. -/
def stripChars (bad : List Char) (s : String) : String :=
  ⟨stripRight bad (stripLeft bad s.data)⟩

/-- Python `s.strip()` (whitespace). -/
def pyStripWS (s : String) : String :=
  stripChars [' ', '\t', '\n', '\r', '\x0b', '\x0c'] s

/-- Python `str.split(sep)` for a one-character separator, on character
lists: splitting the empty string yields `[""]`, adjacent separators yield
empty parts. -/
def splitOnChar (sep : Char) : List Char → List (List Char)
  | [] => [[]]
  | c :: cs =>
    let r := splitOnChar sep cs
    if c = sep then [] :: r
    else (c :: r.headD []) :: r.tail

/-- Python `s.split(sep)` for a one-character separator. -/
def pySplit (sep : Char) (s : String) : List String :=
  (splitOnChar sep s.data).map (fun l => ⟨l⟩)

/-- Re-join with a separator; `joinWith sep (pySplit sep s).tail` recovers
the effect of Python's `s.split(sep, 1)[1]`. -/
def joinWith (sep : String) : List String → String
  | [] => ""
  | [s] => s
  | s :: rest => s ++ sep ++ joinWith sep rest

/-- Python `s.startswith(pre)`. -/
def pyStartsWith (pre s : String) : Bool :=
  pre.data.isPrefixOf s.data

/-- Python `s[n:]` (character count). -/
def pyDrop (n : Nat) (s : String) : String :=
  ⟨s.data.drop n⟩

/-- Python `int(s)` for a decimal literal: optional surrounding whitespace,
optional sign, nonempty digit run; `none` models the `ValueError` raised on
anything else. -/
def pyInt? (s : String) : Option Int :=
  let core := fun (l : List Char) =>
    if l ≠ [] ∧ l.all Char.isDigit = true then some (natOfDigits l) else none
  match (pyStripWS s).data with
  | '-' :: rest => (core rest).map (fun n => -(n : Int))
  | '+' :: rest => (core rest).map (fun n => (n : Int))
  | l => (core l).map (fun n => (n : Int))

/-! ## `sanitize` (lines 114-116) -/

/-- The character class `[<>:"/\\|?*\x00-\x1F]` of `_ILLEGAL`. -/
def illegalChar (c : Char) : Bool :=
  decide (c ∈ ['<', '>', ':', '"', '/', '\\', '|', '?', '*']) || decide (c.toNat ≤ 31)

/-- What `re.sub(_ILLEGAL, "_", ·)` does to one character. -/
def replaceIllegal (c : Char) : Char :=
  if illegalChar c then '_' else c

/-- Lines 114-116: `re.sub(_ILLEGAL, "_", name).strip(" .")`. -/
def sanitize (name : String) : String :=
  stripChars [' ', '.'] ⟨name.data.map replaceIllegal⟩

/-- `pathlib`'s `mod_dir / name` at the string level; joining with an empty
name yields the directory itself (empty path components are dropped). -/
def targetPath (dir name : String) : String :=
  if name = "" then dir else dir ++ "/" ++ name

/-! ## `parse_choices` (lines 168-199) -/

/-- The body of both `if 1 <= n <= maxnum and n not in seen` guards:
`seen.add(n); nums.append(n)`.  The accumulator is `(nums, seen)`. -/
def addChoice (maxnum : Nat) (acc : List Int × List Int) (n : Int) : List Int × List Int :=
  if 1 ≤ n ∧ n ≤ (maxnum : Int) ∧ n ∉ acc.2 then (acc.1 ++ [n], acc.2 ++ [n]) else acc

/-- Python `range(s, e + 1)` (after the swap, `s ≤ e`). -/
def intRange (s e : Int) : List Int :=
  (List.range (e + 1 - s).toNat).map (fun i => s + i)

/-- One iteration of the `for part in raw.split(",")` loop. -/
def choiceStep (maxnum : Nat) (acc : List Int × List Int) (part : String) :
    List Int × List Int :=
  let part := pyStripWS part
  if part = "" then acc
  else if part.data.contains '-' then
    -- `start, end = part.split("-", 1)`: split at the first dash only
    let ps := pySplit '-' part
    match pyInt? (ps.headD ""), pyInt? (joinWith "-" ps.tail) with
    | some s, some e =>
      let p := if s > e then (e, s) else (s, e)
      (intRange p.1 p.2).foldl (addChoice maxnum) acc
    | _, _ => acc
  else
    match pyInt? part with
    | some n => addChoice maxnum acc n
    | none => acc

/-- Lines 168-199: parse a selection string such as `"8,9,6"` or `"5-7"`
into a unique ordered list of module numbers in `[1, maxnum]`. -/
def parse_choices (raw : String) (maxnum : Nat) : List Int :=
  ((pySplit ',' raw).foldl (choiceStep maxnum) ([], [])).1

/-- Invariant carried by the `(nums, seen)` accumulator. -/
def ChoiceInv (maxnum : Nat) (acc : List Int × List Int) : Prop :=
  acc.1.Nodup ∧ ∀ n ∈ acc.1, (1 ≤ n ∧ n ≤ (maxnum : Int)) ∧ n ∈ acc.2

/-! ## Pagination: `get_all` (lines 82-111) -/

/-- Query parameters, as passed to `requests` (`params: Optional[dict]`). -/
abbrev Params := List (String × String)

/-- A JSON response body as consumed by `get_all`: either a raw list of
records or an object whose conventional `"items"` key may hold a list
(`none` models an absent or non-list `"items"`, both of which contribute
nothing). -/
inductive PgBody (α : Type) where
  | arr (rs : List α)
  | obj (items : Option (List α))

/-- Lines 88-94: records extracted from one response body. -/
def recordsOf {α : Type} : PgBody α → List α
  | .arr rs => rs
  | .obj (some rs) => rs
  | .obj none => []

/-- One successful paginated response: body plus the `Link` header
(`""` when the header is absent). -/
structure LinkResp (α : Type) where
  body : PgBody α
  link : String

/-- Lines 96-108: scan the comma-separated `Link` header; the last part
with a `rel="next"` attribute supplies the next URL.  Each part is split on
`;`, every segment is stripped, the first segment stripped of `<> ` is the
href, and the last `rel=...` attribute (value stripped of `"`) is the
relation. -/
def parseNextUrl (link : String) : Option String :=
  (pySplit ',' link).foldl
    (fun acc part =>
      let segs := ((pySplit ';' part).map pyStripWS)
      if segs.length < 2 then acc
      else
        let href := stripChars ['<', '>', ' '] (segs.headD "")
        let rel := (segs.drop 1).foldl
          (fun r attr =>
            if pyStartsWith "rel=" attr then some (stripChars ['"'] (pyDrop 4 attr)) else r)
          none
        if rel = some "next" then some href else acc)
    none

/-- Python truthiness of the `url` variable (`None` and `""` are falsy). -/
def optTruthy : Option String → Bool
  | none => false
  | some u => decide (u ≠ "")

/-- The `while url:` loop of lines 85-110, with an explicit iteration bound
`fuel` (the code has none; `none` means the bound was exhausted, i.e. the
loop is still running).  Besides the accumulated records the model returns
the trace of requests issued, each with the query parameters sent
(`params = None` from the second request on, line 110). -/
def getAllGo {α : Type} (env : String → Option Params → LinkResp α) :
    Nat → Option String → Option Params → List (String × Option Params) → List α →
    Option (List (String × Option Params) × List α)
  | 0, _, _, _, _ => none
  | _ + 1, none, _, trace, acc => some (trace, acc)
  | fuel + 1, some u, p, trace, acc =>
    if u = "" then some (trace, acc)
    else
      getAllGo env fuel (parseNextUrl (env u p).link) none
        (trace ++ [(u, p)]) (acc ++ recordsOf (env u p).body)

/-- Lines 82-111: fetch all pages starting from `url` with the caller's
`params`. -/
def get_all {α : Type} (env : String → Option Params → LinkResp α) (fuel : Nat)
    (url : String) (params : Option Params) :
    Option (List (String × Option Params) × List α) :=
  getAllGo env fuel (some url) params [] []

/-- The URL the loop would request at iteration `n` (`none` once the loop
has terminated; a `some ""` value is also terminal, matching `while url:`). -/
def urlSeq (env : String → Option Params → LinkResp Nat) :
    Nat → Option String → Option Params → Option String
  | 0, u, _ => u
  | n + 1, u?, p =>
    match u? with
    | none => none
    | some u =>
      if u = "" then none
      else urlSeq env n (parseNextUrl (env u p).link) none

/-- A finite chain of pages: each page's `Link` header yields the next URL
in `us` via `rel="next"`, and the last page's header yields no (truthy)
next URL.  `bs` lists the records of each page in order. -/
inductive PChain {α : Type} (env : String → Option Params → LinkResp α) :
    String → Option Params → List String → List (List α) → Prop
  | last (u : String) (p : Option Params)
      (h : optTruthy (parseNextUrl (env u p).link) = false) :
      PChain env u p [] [recordsOf (env u p).body]
  | step (u : String) (p : Option Params) (u' : String) (us : List String)
      (bs : List (List α))
      (h : parseNextUrl (env u p).link = some u') (h' : u' ≠ "")
      (hc : PChain env u' none us bs) :
      PChain env u p (u' :: us) (recordsOf (env u p).body :: bs)

/-! ## Downloader: `download_to` (lines 139-165) -/

/-- One streamed response to `session.get(url, stream=True)`. -/
structure DlResp where
  status : Nat
  retryAfter : Option String
  chunks : List (List Nat)

inductive DlErr where
  | httpStatus (s : Nat)
  | valueError
  deriving DecidableEq

instance {ε α : Type} [DecidableEq ε] [DecidableEq α] : DecidableEq (Except ε α) := fun x y =>
  match x, y with
  | .ok a, .ok b =>
    if h : a = b then .isTrue (by rw [h]) else .isFalse (by simp [h])
  | .error a, .error b =>
    if h : a = b then .isTrue (by rw [h]) else .isFalse (by simp [h])
  | .ok _, .error _ => .isFalse (by simp)
  | .error _, .ok _ => .isFalse (by simp)

/-- Observable behaviour of one `download_to` call: the sleeps performed,
the number of requests issued, and either the bytes written to the target
or the exception that propagated. -/
structure DlTrace where
  sleeps : List Int
  requests : Nat
  outcome : Except DlErr (List Nat)
  deriving DecidableEq

/-- `resp.raise_for_status()` raises exactly for 4xx and 5xx statuses. -/
def raisesFor (status : Nat) : Prop := 400 ≤ status ∧ status < 600

instance (status : Nat) : Decidable (raisesFor status) := by
  unfold raisesFor; infer_instance

/-- `iter_content` writes (`if chunk:` skips empty chunks). -/
def writtenBytes (chunks : List (List Nat)) : List Nat :=
  (chunks.filter (fun c => !c.isEmpty)).flatten

/-- Lines 139-165.  `env i` is the response to the `i`-th `session.get` of
this call (the source issues at most two).  On a 429 first response the
code sleeps `int(headers.get("Retry-After", "3"))` seconds (a non-integer
header value raises `ValueError`, and `time.sleep` raises on a negative
one), then issues exactly one fresh request and streams it; otherwise the
first response is streamed after `raise_for_status`. -/
def download_to (env : Nat → DlResp) : DlTrace :=
  let r := env 0
  if r.status = 429 then
    match pyInt? (r.retryAfter.getD "3") with
    | none => ⟨[], 1, .error .valueError⟩
    | some v =>
      if v < 0 then ⟨[], 1, .error .valueError⟩
      else
        let r2 := env 1
        if raisesFor r2.status then ⟨[v], 2, .error (.httpStatus r2.status)⟩
        else ⟨[v], 2, .ok (writtenBytes r2.chunks)⟩
  else if raisesFor r.status then ⟨[], 1, .error (.httpStatus r.status)⟩
  else ⟨[], 1, .ok (writtenBytes r.chunks)⟩

/-! ## Orchestrator core: harvesting and the download loops (lines 293-377)

HTTP exceptions that the orchestrator does not catch are modelled as
`Except.error status`; the uncaught exception aborts the run. -/

/-- A module item, keyed by its `type` tag.  `content_id` / `page_url`
are `none` when absent (or malformed, which the source skips the same
way); a `content_id` of `0` is falsy in Python and is also skipped. -/
inductive MItem where
  | file (content_id : Option Nat)
  | page (page_url : Option String)
  | assignment (content_id : Option Nat)
  | other

/-- Response to a page fetch (`GET /pages/<slug>`); `body` is the `"body"`
field, `none` when absent or null. -/
structure PageResp where
  status : Nat
  body : Option String

/-- Response to an assignment fetch; `attachments` is the `"attachments"`
list (`none` when absent/null), each entry being its `"id"` field (`none`
when absent or not an `int`). -/
structure AssignResp where
  status : Nat
  attachments : Option (List (Option Nat))

/-- File metadata returned by `GET /files/<id>`. -/
structure FileMeta where
  status : Nat
  display_name : Option String
  filename : Option String
  url : Option String
  download_url : Option String
  size : Option Nat

/-- Python `a or b` on two optional strings (empty strings are falsy). -/
def pyOrStr (a b : Option String) : Option String :=
  match a with
  | some s => if s = "" then b else some s
  | none => b

/-- The network and local-filesystem environment of one run:
`fileMeta` answers metadata lookups, `dl` tells whether `download_to`
succeeds (`false` = a `requests.RequestException` is raised) for a given
URL and target path. -/
structure Env where
  page : String → PageResp
  assignment : Nat → AssignResp
  fileMeta : Nat → FileMeta
  dl : String → String → Bool

/-- Lines 310-316, strategy A: direct `File` items. -/
def harvestFiles (items : List MItem) : Finset Nat :=
  items.foldl
    (fun s it =>
      match it with
      | .file (some cid) => if cid ≠ 0 then insert cid s else s
      | _ => s)
    ∅

/-- Lines 318-329, strategy B: `Page` items; a 403 is skipped, any other
error status raises (uncaught). -/
def harvestPages (env : Env) (items : List MItem) : Except Nat (Finset Nat) :=
  items.foldlM
    (fun s it =>
      match it with
      | .page (some slug) =>
        if slug = "" then pure s
        else
          let r := env.page slug
          if r.status = 403 then pure s
          else if raisesFor r.status then throw r.status
          else pure (s ∪ find_file_ids_in_html (r.body.getD ""))
      | _ => pure s)
    ∅

/-- Lines 331-342, strategy C: `Assignment` items; a 403 is skipped, any
other error status raises (uncaught); only `int` attachment ids count. -/
def harvestAssignments (env : Env) (items : List MItem) : Except Nat (Finset Nat) :=
  items.foldlM
    (fun s it =>
      match it with
      | .assignment (some cid) =>
        if cid ≠ 0 then
          let r := env.assignment cid
          if r.status = 403 then pure s
          else if raisesFor r.status then throw r.status
          else pure ((r.attachments.getD []).foldl
            (fun t a => match a with | some fid => insert fid t | none => t) s)
        else pure s
      | _ => pure s)
    ∅

/-- Lines 308-342: the per-module identifier set, accumulated by the three
strategies in source order (A, then B, then C). -/
def harvest (env : Env) (items : List MItem) : Except Nat (Finset Nat) := do
  let s1 := harvestFiles items
  let s2 ← harvestPages env items
  let s3 ← harvestAssignments env items
  pure (s1 ∪ s2 ∪ s3)

/-- `name = meta.get("display_name") or meta.get("filename") or f"file_{fid}"`. -/
def metaName (fr : FileMeta) (fid : Nat) : String :=
  (pyOrStr (pyOrStr fr.display_name fr.filename) (some ("file_" ++ toString fid))).getD ""

/-- `target = mod_dir / sanitize(name)` (line 362). -/
def metaTarget (dir : String) (fr : FileMeta) (fid : Nat) : String :=
  targetPath dir (sanitize (metaName fr fid))

/-- Per-file outcome inside the download loop.  `downloaded`/`failed`
record the URL requested and the target path written (or attempted). -/
inductive Outcome where
  | meta403
  | noUrl
  | skipped
  | downloaded (url target : String)
  | failed (url target : String)
  deriving DecidableEq

/-- Lines 350-371, one iteration of `for fid in sorted(file_ids)`:
metadata lookup (403 skips the file, any other error status raises,
uncaught), then the skip rule, then the guarded download whose
`requests.RequestException` is caught and reported.  `fs` maps an existing
path to its on-disk byte length. -/
def processFid (env : Env) (fs : String → Option Nat) (dir : String) (fid : Nat) :
    Except Nat Outcome :=
  let fr := env.fileMeta fid
  if fr.status = 403 then .ok .meta403
  else if raisesFor fr.status then .error fr.status
  else
    let url := pyOrStr fr.url fr.download_url
    let size := fr.size.getD 0
    match url with
    | none => .ok .noUrl
    | some u =>
      if u = "" then .ok .noUrl
      else
        let target := metaTarget dir fr fid
        if (fs target).isSome ∧ size ≠ 0 ∧ fs target = some size then .ok .skipped
        else if env.dl u target then .ok (.downloaded u target)
        else .ok (.failed u target)

/-- Lines 348-371: the download loop with its `downloaded`/`skipped`
counters. -/
def fileLoop (env : Env) (fs : String → Option Nat) (dir : String) :
    List Nat → Nat → Nat → Except Nat (Nat × Nat)
  | [], d, s => .ok (d, s)
  | fid :: rest, d, s =>
    match processFid env fs dir fid with
    | .error st => .error st
    | .ok oc =>
      match oc with
      | .downloaded _ _ => fileLoop env fs dir rest (d + 1) s
      | .skipped => fileLoop env fs dir rest d (s + 1)
      | _ => fileLoop env fs dir rest d s

/-- Python `sorted(file_ids)`: the elements of the set in ascending order
(enumerated from below; every element is below `s.sup id + 1`). -/
def sortedIds (s : Finset Nat) : List Nat :=
  (List.range (s.sup id + 1)).filter (fun n => decide (n ∈ s))

/-- One module (lines 293-375): harvest, then download each id in
ascending order. -/
def runModule (env : Env) (fs : String → Option Nat) (dir : String)
    (items : List MItem) : Except Nat (Nat × Nat) := do
  let ids ← harvest env items
  fileLoop env fs dir (sortedIds ids) 0 0

/-- The `for choice in choices:` loop with the grand totals (lines
290-377); an exception escaping one module aborts the whole run. -/
def runModules (env : Env) (fs : String → Option Nat) :
    List (String × List MItem) → Nat → Nat → Except Nat (Nat × Nat)
  | [], d, s => .ok (d, s)
  | (dir, items) :: rest, d, s =>
    match runModule env fs dir items with
    | .error st => .error st
    | .ok (md, ms) => runModules env fs rest (d + md) (s + ms)

/-! ## Concrete environments used in the theorems below -/

/-- The end-to-end scenario: one page with two embedded file links, one
assignment with one attachment. -/
def env1 : Env where
  page := fun slug =>
    if slug = "intro" then
      ⟨200, some "<p><a href=\"/files/502\">a</a> <a href=\"/api/v1/files/503\">b</a></p>"⟩
    else ⟨200, none⟩
  assignment := fun cid => if cid = 77 then ⟨200, some [some 504]⟩ else ⟨200, none⟩
  fileMeta := fun _ => ⟨200, none, none, none, none, none⟩
  dl := fun _ _ => true

/-- One File item (id 501), one Page item, one Assignment item. -/
def items1 : List MItem :=
  [.file (some 501), .page (some "intro"), .assignment (some 77)]

/-- A three-page chain with realistic `Link` headers. -/
def env3 : String → Option Params → LinkResp Nat := fun u _ =>
  if u = "u1" then ⟨.arr [1, 2], "<u2>; rel=\"next\", <u0>; rel=\"first\""⟩
  else if u = "u2" then ⟨.obj (some [3]), "<u3>; rel=\"next\""⟩
  else ⟨.arr [4, 5], "<u2>; rel=\"prev\""⟩

def loopLink : String := "<https://x/a>; rel=\"next\""

/-- A page whose `Link` header points back to itself. -/
def envLoop : String → Option Params → LinkResp Nat := fun _ _ =>
  ⟨.arr [], loopLink⟩

/-- A two-page chain. -/
def envC9 : String → Option Params → LinkResp Nat := fun u _ =>
  if u = "w1" then ⟨.arr [10], "<w2>; rel=\"next\""⟩ else ⟨.arr [11], ""⟩

/-- Metadata for an already-synced file of size 5. -/
def env4 : Env where
  page := fun _ => ⟨200, none⟩
  assignment := fun _ => ⟨200, none⟩
  fileMeta := fun _ => ⟨200, some "report.pdf", none, some "http://h/r", none, some 5⟩
  dl := fun _ _ => true

def fs4 : String → Option Nat := fun p => if p = "d/report.pdf" then some 5 else none

/-- A run where module `m1` has a page answering 500 and module `m2`
downloads fine. -/
def env5 : Env where
  page := fun slug => if slug = "p1" then ⟨500, none⟩ else ⟨200, none⟩
  assignment := fun _ => ⟨200, none⟩
  fileMeta := fun fid => ⟨200, some ("g" ++ toString fid ++ ".txt"), none,
    some ("http://h/" ++ toString fid), none, none⟩
  dl := fun _ _ => true

def fs5 : String → Option Nat := fun _ => none

/-- Downloads succeed except for the URL of file 2. -/
def envW : Env where
  page := fun _ => ⟨200, none⟩
  assignment := fun _ => ⟨200, none⟩
  fileMeta := fun fid => ⟨200, some ("f" ++ toString fid ++ ".txt"), none,
    some ("http://h/" ++ toString fid), none, none⟩
  dl := fun u _ => !(u == "http://h/2")

def fsW : String → Option Nat := fun _ => none

/-- First response 429 with `Retry-After: 7`, second response succeeds. -/
def env6 : Nat → DlResp := fun i =>
  if i = 0 then ⟨429, some "7", [[1], [], [2, 3]]⟩ else ⟨200, none, [[4], [], [5]]⟩

/-! # Theorems -/

/-! ## Scanner lemmas -/

theorem takeDigits_all : ∀ l : List Char, ∀ c ∈ takeDigits l, c.isDigit = true := by
  intro l
  induction l with
  | nil => intro c hc; simp [takeDigits] at hc
  | cons a as ih =>
    intro c hc
    by_cases ha : a.isDigit
    · rw [takeDigits, if_pos ha] at hc
      rcases List.mem_cons.1 hc with rfl | hc
      · exact ha
      · exact ih c hc
    · rw [takeDigits, if_neg ha] at hc
      simp at hc

theorem takeDigits_append_drop :
    ∀ l : List Char, takeDigits l ++ l.drop (takeDigits l).length = l := by
  intro l
  induction l with
  | nil => simp [takeDigits]
  | cons a as ih =>
    by_cases ha : a.isDigit
    · rw [takeDigits, if_pos ha]
      simpa using ih
    · rw [takeDigits, if_neg ha]
      simp

theorem takeDigits_max :
    ∀ l : List Char, noDigitHead (l.drop (takeDigits l).length) = true := by
  intro l
  induction l with
  | nil => simp [takeDigits, noDigitHead]
  | cons a as ih =>
    by_cases ha : a.isDigit
    · rw [takeDigits, if_pos ha]
      simpa using ih
    · rw [takeDigits, if_neg ha]
      simp [noDigitHead, ha]

theorem takeDigits_of_digits :
    ∀ ds post : List Char, ds.all Char.isDigit = true → noDigitHead post = true →
      takeDigits (ds ++ post) = ds := by
  intro ds
  induction ds with
  | nil =>
    intro post _ hp
    cases post with
    | nil => simp [takeDigits]
    | cons p ps =>
      simp only [noDigitHead, List.head?_cons, Bool.not_eq_true'] at hp
      simp [takeDigits, hp]
  | cons d ds ih =>
    intro post hall hp
    simp only [List.all_cons, Bool.and_eq_true] at hall
    rw [List.cons_append, takeDigits, if_pos hall.1, ih post hall.2 hp]

theorem isPrefixOf_iff_append :
    ∀ p l : List Char, p.isPrefixOf l = true ↔ ∃ t, l = p ++ t := by
  intro p
  induction p with
  | nil => intro l; simp [List.isPrefixOf]
  | cons a as ih =>
    intro l
    cases l with
    | nil => simp [List.isPrefixOf]
    | cons b bs =>
      simp only [List.isPrefixOf, Bool.and_eq_true, beq_iff_eq, ih bs, List.cons_append,
        List.cons.injEq]
      constructor
      · rintro ⟨rfl, t, rfl⟩; exact ⟨t, rfl, rfl⟩
      · rintro ⟨t, rfl, rfl⟩; exact ⟨rfl, t, rfl⟩

theorem head?_mem {α : Type} {l : List α} {c : α} (h : l.head? = some c) : c ∈ l := by
  cases l with
  | nil => simp at h
  | cons a as => simp at h; simp [h]

theorem head?_append_left {α : Type} {l₁ : List α} (l₂ : List α) (h : l₁ ≠ []) :
    (l₁ ++ l₂).head? = l₁.head? := by
  cases l₁ with
  | nil => exact absurd rfl h
  | cons a as => simp

theorem occursId_append (x : List Char) {pat : List Char} {n : Nat} {l : List Char}
    (h : OccursId pat n l) : OccursId pat n (x ++ l) := by
  obtain ⟨pre, ds, post, hd, h1, h2, h3, h4⟩ := h
  exact ⟨x ++ pre, ds, post, by simp [hd, List.append_assoc], h1, h2, h3, h4⟩

theorem occursId_cons (x : Char) {pat : List Char} {n : Nat} {l : List Char}
    (h : OccursId pat n l) : OccursId pat n (x :: l) :=
  occursId_append [x] h

theorem isEmpty_false_iff {α : Type} (l : List α) : l.isEmpty = false ↔ l ≠ [] := by
  cases l <;> simp

theorem noDigitHead_head? {l : List Char} {c : Char} (h : l.head? = some c) :
    noDigitHead l = !c.isDigit := by
  unfold noDigitHead; rw [h]

/-- Soundness of the scan: every captured value comes from an occurrence of
the pattern followed by a maximal digit run. -/
theorem scanIds_sound (pat : List Char) :
    ∀ fuel l n, n ∈ scanIdsF pat fuel l → OccursId pat n l := by
  intro fuel
  induction fuel with
  | zero => intro l n h; simp [scanIdsF] at h
  | succ fuel ih =>
    intro l n h
    cases l with
    | nil => simp [scanIdsF] at h
    | cons c cs =>
      by_cases hcond :
          (pat.isPrefixOf (c :: cs) &&
            !(takeDigits ((c :: cs).drop pat.length)).isEmpty) = true
      · rw [scanIdsF, if_pos hcond] at h
        simp only [Bool.and_eq_true, Bool.not_eq_true'] at hcond
        obtain ⟨t, ht⟩ := (isPrefixOf_iff_append pat (c :: cs)).1 hcond.1
        have hrest : (c :: cs).drop pat.length = t := by
          rw [ht, List.drop_left]
        rcases List.mem_cons.1 h with rfl | hmem
        · refine ⟨[], takeDigits t, t.drop (takeDigits t).length, ?_, ?_, ?_, ?_, by rw [hrest]⟩
          · rw [ht, List.nil_append, ← takeDigits_append_drop t, List.append_assoc]
            simp [takeDigits_append_drop]
          · rw [hrest] at hcond
            exact (isEmpty_false_iff _).1 hcond.2
          · simp only [List.all_eq_true]; exact takeDigits_all t
          · exact takeDigits_max t
        · rw [hrest] at hmem
          have := ih _ _ hmem
          have h2 : OccursId pat n ((pat ++ takeDigits t) ++ t.drop (takeDigits t).length) :=
            occursId_append _ this
          rw [List.append_assoc, takeDigits_append_drop t, ← ht] at h2
          exact h2
      · rw [scanIdsF, if_neg hcond] at h
        exact occursId_cons c (ih cs n h)

/-- Completeness of the scan for a `GoodPat` pattern: every occurrence is
captured. -/
theorem scanIds_complete (pat : List Char) (hg : GoodPat pat) :
    ∀ fuel l n, l.length ≤ fuel → OccursId pat n l → n ∈ scanIdsF pat fuel l := by
  obtain ⟨hne, hhead, hborder⟩ := hg
  intro fuel
  induction fuel with
  | zero =>
    intro l n hl ho
    obtain ⟨pre, ds, post, hdec, _, _, _, _⟩ := ho
    have hnil : l = [] := List.length_eq_zero.1 (Nat.le_zero.1 hl)
    rw [hnil] at hdec
    have hlen := congrArg List.length hdec
    simp only [List.length_nil, List.length_append] at hlen
    have hp : 0 < pat.length := List.length_pos.2 hne
    omega
  | succ fuel ih =>
    intro l n hl ho
    obtain ⟨pre, ds, post, hdec, hdne, hdall, hpost, hval⟩ := ho
    cases l with
    | nil =>
      have hlen := congrArg List.length hdec
      simp only [List.length_nil, List.length_append] at hlen
      have hp : 0 < pat.length := List.length_pos.2 hne
      omega
    | cons c cs =>
      simp only [List.length_cons, Nat.succ_le_succ_iff] at hl
      by_cases hcond :
          (pat.isPrefixOf (c :: cs) &&
            !(takeDigits ((c :: cs).drop pat.length)).isEmpty) = true
      · -- the scanner matches at this position
        rw [scanIdsF, if_pos hcond]
        simp only [Bool.and_eq_true, Bool.not_eq_true'] at hcond
        obtain ⟨t, ht⟩ := (isPrefixOf_iff_append pat (c :: cs)).1 hcond.1
        have hrest : (c :: cs).drop pat.length = t := by rw [ht, List.drop_left]
        rw [hrest]
        have htd : takeDigits t ++ t.drop (takeDigits t).length = t := takeDigits_append_drop t
        have hds0 : takeDigits t ≠ [] := (isEmpty_false_iff _).1 (hrest ▸ hcond.2)
        cases pre with
        | nil =>
          -- the occurrence is exactly where the scanner matched
          rw [List.nil_append, List.append_assoc] at hdec
          have hteq : ds ++ post = t :=
            List.append_cancel_left (hdec.symm.trans ht)
          have htds : takeDigits t = ds := by
            rw [← hteq]; exact takeDigits_of_digits ds post hdall hpost
          rw [htds, hval]
          exact List.mem_cons_self _ _
        | cons p pr =>
          -- the occurrence starts at position k = (p :: pr).length ≥ 1
          have hdec' : c :: cs = (p :: pr) ++ (pat ++ (ds ++ post)) := by
            simpa [List.append_assoc] using hdec
          have hsplit2 : c :: cs = pat ++ (takeDigits t ++ t.drop (takeDigits t).length) := by
            rw [htd, ← ht]
          have hd1 : (c :: cs).drop (p :: pr).length = pat ++ (ds ++ post) := by
            rw [hdec']; exact List.drop_left _ _
          have hk1 : 0 < (p :: pr).length := by simp
          rcases Nat.lt_or_ge (p :: pr).length pat.length with hklt | hkge
          · -- 1 ≤ k < |pat|: a border of the pattern would have to be a digit
            exfalso
            set k := (p :: pr).length with hkdef
            have hd2 : (c :: cs).drop k =
                pat.drop k ++ (takeDigits t ++ t.drop (takeDigits t).length) := by
              rw [hsplit2]; exact List.drop_append_of_le_length (Nat.le_of_lt hklt)
            have hE : pat ++ (ds ++ post) =
                pat.drop k ++ (takeDigits t ++ t.drop (takeDigits t).length) :=
              hd1.symm.trans hd2
            have hlen : (pat.drop k).length = pat.length - k := List.length_drop k pat
            have htake : pat.take (pat.length - k) = pat.drop k := by
              have h1 : (pat ++ (ds ++ post)).take (pat.length - k) =
                  pat.take (pat.length - k) :=
                List.take_append_of_le_length (Nat.sub_le _ _)
              have h2 : (pat.drop k ++ (takeDigits t ++ t.drop (takeDigits t).length)).take
                  (pat.length - k) = pat.drop k :=
                List.take_left' hlen
              rw [← h1, hE, h2]
            have hnd : noDigitHead (pat.drop (pat.length - k)) = true :=
              hborder k hklt hk1 htake.symm
            have hdropm : pat.drop (pat.length - k) ++ (ds ++ post) =
                takeDigits t ++ t.drop (takeDigits t).length := by
              have h1 : (pat ++ (ds ++ post)).drop (pat.length - k) =
                  pat.drop (pat.length - k) ++ (ds ++ post) :=
                List.drop_append_of_le_length (Nat.sub_le _ _)
              have h2 : (pat.drop k ++ (takeDigits t ++ t.drop (takeDigits t).length)).drop
                  (pat.length - k) = takeDigits t ++ t.drop (takeDigits t).length :=
                List.drop_left' hlen
              rw [← h1, hE, h2]
            have hpd : pat.drop (pat.length - k) ≠ [] := by
              apply List.length_pos.1
              rw [List.length_drop]
              omega
            obtain ⟨c₀, hc₀⟩ : ∃ c₀, (pat.drop (pat.length - k)).head? = some c₀ := by
              cases hpdl : pat.drop (pat.length - k) with
              | nil => exact absurd hpdl hpd
              | cons x xs => exact ⟨x, by simp⟩
            have hrhead : (takeDigits t ++ t.drop (takeDigits t).length).head? = some c₀ := by
              rw [← hdropm, head?_append_left _ hpd]; exact hc₀
            have hc₀digit : c₀.isDigit = true := by
              have h1 : (takeDigits t).head? = some c₀ :=
                (head?_append_left (t.drop (takeDigits t).length) hds0).symm.trans hrhead
              exact takeDigits_all t c₀ (head?_mem h1)
            rw [noDigitHead_head? hc₀, hc₀digit] at hnd
            simp at hnd
          · rcases Nat.lt_or_ge (p :: pr).length (pat.length + (takeDigits t).length)
              with hklt2 | hkge2
            · -- |pat| ≤ k < |pat| + |digit run|: the pattern would start with a digit
              exfalso
              set k := (p :: pr).length with hkdef
              have hd2 : (c :: cs).drop k =
                  (takeDigits t).drop (k - pat.length) ++ t.drop (takeDigits t).length := by
                rw [hsplit2]
                have hk : pat.length + (k - pat.length) = k := by omega
                conv_lhs => rw [← hk]
                rw [List.drop_append]
                exact List.drop_append_of_le_length
                  (show k - pat.length ≤ (takeDigits t).length by omega)
              have hE : pat ++ (ds ++ post) =
                  (takeDigits t).drop (k - pat.length) ++ t.drop (takeDigits t).length :=
                hd1.symm.trans hd2
              have hpatne : ∃ c₀, pat.head? = some c₀ := by
                cases hp : pat with
                | nil => exact absurd hp hne
                | cons x xs => exact ⟨x, by simp⟩
              obtain ⟨c₀, hc₀⟩ := hpatne
              have hdropne : (takeDigits t).drop (k - pat.length) ≠ [] := by
                apply List.length_pos.1
                rw [List.length_drop]
                omega
              have hrhead :
                  ((takeDigits t).drop (k - pat.length) ++ t.drop (takeDigits t).length).head? =
                    some c₀ := by
                rw [← hE, head?_append_left _ hne]; exact hc₀
              have h1 : ((takeDigits t).drop (k - pat.length)).head? = some c₀ :=
                (head?_append_left (t.drop (takeDigits t).length) hdropne).symm.trans hrhead
              have hc₀digit : c₀.isDigit = true :=
                takeDigits_all t c₀ (List.mem_of_mem_drop (head?_mem h1))
              rw [noDigitHead_head? hc₀, hc₀digit] at hhead
              simp at hhead
            · -- k ≥ |pat| + |digit run|: the occurrence lies beyond the match
              set k := (p :: pr).length with hkdef
              set m := pat.length + (takeDigits t).length with hmdef
              have hrem1 : t.drop (takeDigits t).length = (c :: cs).drop m := by
                rw [hsplit2, hmdef, List.drop_append, List.drop_left]
              have hrem2 : (c :: cs).drop m =
                  (p :: pr).drop m ++ (pat ++ (ds ++ post)) := by
                rw [hdec']; exact List.drop_append_of_le_length hkge2
              have hocc : OccursId pat n (t.drop (takeDigits t).length) :=
                ⟨(p :: pr).drop m, ds, post, by
                  rw [hrem1, hrem2]; simp [List.append_assoc], hdne, hdall, hpost, hval⟩
              have hfuel : (t.drop (takeDigits t).length).length ≤ fuel := by
                have h1 : (t.drop (takeDigits t).length).length =
                    (c :: cs).length - m := by rw [hrem1, List.length_drop]
                have h2 : 0 < (takeDigits t).length := List.length_pos.2 hds0
                simp only [List.length_cons] at h1
                omega
              exact List.mem_cons_of_mem _ (ih _ n hfuel hocc)
      · -- the scanner does not match at this position
        rw [scanIdsF, if_neg hcond]
        cases pre with
        | nil =>
          exfalso
          apply hcond
          rw [List.nil_append, List.append_assoc] at hdec
          rw [Bool.and_eq_true, Bool.not_eq_true']
          constructor
          · exact (isPrefixOf_iff_append pat (c :: cs)).2 ⟨ds ++ post, hdec⟩
          · have h1 : (c :: cs).drop pat.length = ds ++ post := by rw [hdec, List.drop_left]
            rw [h1, takeDigits_of_digits ds post hdall hpost]
            exact (isEmpty_false_iff ds).2 hdne
        | cons p pr =>
          have hcs : cs = pr ++ pat ++ ds ++ post := by
            simpa using congrArg List.tail hdec
          exact ih cs n hl ⟨pr, ds, post, hcs, hdne, hdall, hpost, hval⟩

theorem mem_scanIds (pat : List Char) (hg : GoodPat pat) (l : List Char) (n : Nat) :
    n ∈ scanIds pat l ↔ OccursId pat n l :=
  ⟨scanIds_sound pat l.length l n, scanIds_complete pat hg l.length l n le_rfl⟩

/-- C2: for every HTML string, `find_file_ids_in_html` returns exactly the
set of integer values of maximal digit runs following an occurrence of
`/files/` or `/api/v1/files/` (so duplicates collapse, matching is
insensitive to what follows the digits, and the `/download` variant is
covered); non-matching paths such as `/filestore/123` contribute
nothing. -/
theorem find_file_ids_in_html_spec :
    (∀ (html : String) (n : Nat),
      n ∈ find_file_ids_in_html html ↔
        OccursId filesPat n html.data ∨ OccursId apiPat n html.data) ∧
    find_file_ids_in_html "<a href=\"https://sc.edu/courses/9/files/502/download\">f</a>" =
      {502} ∧
    find_file_ids_in_html "/filestore/123" = (∅ : Finset Nat) := by
  refine ⟨?_, by decide, by decide⟩
  intro html n
  rw [find_file_ids_in_html, Finset.mem_union, List.mem_toFinset, List.mem_toFinset,
    mem_scanIds filesPat (by decide) _ n, mem_scanIds apiPat (by decide) _ n]

/-! ## Pagination -/

theorem getAllGo_chain {α : Type} (env : String → Option Params → LinkResp α)
    {u : String} {p : Option Params} {us : List String} {bs : List (List α)}
    (hc : PChain env u p us bs) :
    ∀ trace acc, u ≠ "" →
      getAllGo env (bs.length + 1) (some u) p trace acc =
        some (trace ++ (u, p) :: us.map (fun v => (v, (none : Option Params))),
          acc ++ bs.flatten) := by
  induction hc with
  | last u p h =>
    intro trace acc hu
    rw [show ([recordsOf (env u p).body]).length + 1 = 1 + 1 from rfl]
    rw [getAllGo, if_neg hu]
    cases hn : parseNextUrl (env u p).link with
    | none => simp [getAllGo]
    | some v =>
      rw [hn] at h
      simp only [optTruthy, decide_eq_false_iff_not, not_not] at h
      subst h
      simp [getAllGo]
  | step u p u' us bs h h' hc ih =>
    intro trace acc hu
    rw [show (recordsOf (env u p).body :: bs).length + 1 = (bs.length + 1) + 1 from by simp]
    rw [getAllGo, if_neg hu, h]
    rw [ih (trace ++ [(u, p)]) (acc ++ recordsOf (env u p).body) h']
    simp [List.append_assoc]

/-- C3: for every environment and finite chain of pages linked by
`rel="next"` relations, `get_all` performs exactly one request per page,
sends the caller-supplied query parameters only on the first request
(continuation requests carry `none`), returns the in-order concatenation of
all pages' records, and stops after the first page without a (truthy)
`next` relation. -/
theorem get_all_spec {α : Type} (env : String → Option Params → LinkResp α)
    (u₀ : String) (p₀ : Option Params) (us : List String) (bs : List (List α))
    (h₀ : u₀ ≠ "") (hc : PChain env u₀ p₀ us bs) :
    us.length + 1 = bs.length ∧
    get_all env (bs.length + 1) u₀ p₀ =
      some ((u₀, p₀) :: us.map (fun v => (v, (none : Option Params))), bs.flatten) := by
  constructor
  · clear h₀
    induction hc with
    | last _ _ _ => rfl
    | step _ _ _ _ _ _ _ _ ih => simpa using ih
  · have h := getAllGo_chain env hc [] [] h₀
    simpa [get_all] using h

/-- Witness for C3 on a concrete three-page chain. -/
theorem get_all_spec_witness :
    get_all env3 4 "u1" (some [("per_page", "100")]) =
      some ([("u1", some [("per_page", "100")]), ("u2", none), ("u3", none)],
        [1, 2, 3, 4, 5]) := by
  have hc : PChain env3 "u1" (some [("per_page", "100")]) ["u2", "u3"]
      [[1, 2], [3], [4, 5]] := by
    refine PChain.step _ _ "u2" _ _ (by decide) (by decide) ?_
    refine PChain.step _ _ "u3" _ _ (by decide) (by decide) ?_
    exact PChain.last _ _ (by decide)
  have h := (get_all_spec env3 "u1" (some [("per_page", "100")]) ["u2", "u3"]
    [[1, 2], [3], [4, 5]] (by decide) hc).2
  simpa using h

/-- C9: `get_all` enforces no page limit.  First conjunct: on a page whose
`Link` header points back to itself the loop never terminates (no amount of
fuel makes it return).  Second conjunct: whenever the `next` chain goes
falsy after `n` steps, fuel `n + 1` suffices, so the loop terminates
exactly on finite chains.  Third conjunct: if the chain never goes falsy
the loop returns under no fuel at all. -/
theorem get_all_unbounded :
    (∀ fuel p trace acc,
      getAllGo envLoop fuel (some "https://x/a") p trace acc = none) ∧
    (∀ (env : String → Option Params → LinkResp Nat) u p n trace acc,
      optTruthy (urlSeq env n u p) = false →
      (getAllGo env (n + 1) u p trace acc).isSome = true) ∧
    (∀ (env : String → Option Params → LinkResp Nat) u p,
      (∀ n, optTruthy (urlSeq env n u p) = true) →
      ∀ fuel trace acc, getAllGo env fuel u p trace acc = none) := by
  refine ⟨?_, ?_, ?_⟩
  · intro fuel
    induction fuel with
    | zero => intro p trace acc; rfl
    | succ fuel ih =>
      intro p trace acc
      have hp : parseNextUrl (envLoop "https://x/a" p).link = some "https://x/a" := by
        rw [show (envLoop "https://x/a" p).link = loopLink from rfl]
        decide
      rw [getAllGo, if_neg (by decide : ¬("https://x/a" = "")), hp]
      exact ih none _ _
  · intro env u p n
    induction n generalizing u p with
    | zero =>
      intro trace acc h
      cases u with
      | none => simp [getAllGo]
      | some uu =>
        simp only [urlSeq, optTruthy, decide_eq_false_iff_not, not_not] at h
        subst h
        simp [getAllGo]
    | succ n ih =>
      intro trace acc h
      cases u with
      | none => simp [getAllGo]
      | some uu =>
        by_cases huu : uu = ""
        · subst huu; simp [getAllGo]
        · rw [urlSeq, if_neg huu] at h
          rw [getAllGo, if_neg huu]
          exact ih _ _ _ _ h
  · intro env u p h fuel
    induction fuel generalizing u p with
    | zero => intro trace acc; rfl
    | succ fuel ih =>
      intro trace acc
      have h0 := h 0
      cases u with
      | none => simp [urlSeq, optTruthy] at h0
      | some uu =>
        simp only [urlSeq, optTruthy, decide_eq_true_eq] at h0
        rw [getAllGo, if_neg h0]
        apply ih
        intro n
        have hn := h (n + 1)
        rw [urlSeq, if_neg h0] at hn
        exact hn

/-- Witness for C9: the second conjunct applied to a concrete two-page
chain, and the third conjunct applied to the self-looping page. -/
theorem get_all_unbounded_witness :
    (getAllGo envC9 3 (some "w1") none [] []).isSome = true ∧
    getAllGo envLoop 5 (some "https://x/a") none [] [] = none := by
  constructor
  · exact get_all_unbounded.2.1 envC9 (some "w1") none 2 [] [] (by decide)
  · have hloop : ∀ n, urlSeq envLoop n (some "https://x/a") none = some "https://x/a" := by
      intro n
      induction n with
      | zero => rfl
      | succ n ih =>
        rw [urlSeq, if_neg (by decide : ¬("https://x/a" = ""))]
        rw [show parseNextUrl (envLoop "https://x/a" (none : Option Params)).link =
          some "https://x/a" from by decide]
        exact ih
    exact get_all_unbounded.2.2 envLoop (some "https://x/a") none
      (fun n => by rw [hloop n]; decide) 5 [] []

/-! ## Sanitize -/

theorem stripLeft_decomp (bad : List Char) (l : List Char) :
    ∃ pre, l = pre ++ stripLeft bad l ∧ (∀ c ∈ pre, c ∈ bad) ∧
      ∀ c ∈ (stripLeft bad l).head?, c ∉ bad := by
  induction l with
  | nil => exact ⟨[], rfl, by simp, by simp [stripLeft]⟩
  | cons a as ih =>
    by_cases ha : a ∈ bad
    · obtain ⟨pre, h1, h2, h3⟩ := ih
      have hs : stripLeft bad (a :: as) = stripLeft bad as := by
        rw [stripLeft, List.dropWhile_cons, if_pos (by simpa using ha)]
        rfl
      refine ⟨a :: pre, ?_, ?_, ?_⟩
      · rw [hs, List.cons_append, ← h1]
      · intro c hc
        rcases List.mem_cons.1 hc with rfl | hc
        · exact ha
        · exact h2 c hc
      · rw [hs]; exact h3
    · have hs : stripLeft bad (a :: as) = a :: as := by
        rw [stripLeft, List.dropWhile_cons, if_neg (by simpa using ha)]
      refine ⟨[], by rw [hs, List.nil_append], by simp, ?_⟩
      rw [hs]
      intro c hc
      rw [Option.mem_def, List.head?_cons, Option.some.injEq] at hc
      exact hc ▸ ha

theorem stripRight_decomp (bad : List Char) (l : List Char) :
    ∃ suf, l = stripRight bad l ++ suf ∧ (∀ c ∈ suf, c ∈ bad) ∧
      ∀ c ∈ (stripRight bad l).getLast?, c ∉ bad := by
  obtain ⟨pre, h1, h2, h3⟩ := stripLeft_decomp bad l.reverse
  refine ⟨pre.reverse, ?_, ?_, ?_⟩
  · have h := congrArg List.reverse h1
    simpa [stripRight] using h
  · intro c hc
    exact h2 c (List.mem_reverse.1 hc)
  · rw [stripRight, List.getLast?_reverse]
    exact h3

theorem stripChars_decomp (bad : List Char) (s : String) :
    ∃ pre suf, s.data = pre ++ (stripChars bad s).data ++ suf ∧
      (∀ c ∈ pre, c ∈ bad) ∧ (∀ c ∈ suf, c ∈ bad) ∧
      (∀ c ∈ (stripChars bad s).data.head?, c ∉ bad) ∧
      (∀ c ∈ (stripChars bad s).data.getLast?, c ∉ bad) := by
  obtain ⟨pre, hl1, hl2, hl3⟩ := stripLeft_decomp bad s.data
  obtain ⟨suf, hr1, hr2, hr3⟩ := stripRight_decomp bad (stripLeft bad s.data)
  have hdata : (stripChars bad s).data = stripRight bad (stripLeft bad s.data) := rfl
  refine ⟨pre, suf, ?_, hl2, hr2, ?_, ?_⟩
  · rw [hdata, List.append_assoc, ← hr1, ← hl1]
  · rw [hdata]
    intro c hc
    have hne : stripRight bad (stripLeft bad s.data) ≠ [] := by
      intro hnil
      rw [Option.mem_def, hnil] at hc
      simp at hc
    apply hl3
    rw [Option.mem_def, hr1, head?_append_left _ hne]
    exact hc
  · rw [hdata]; exact hr3

theorem stripChars_no_strip (bad : List Char) (s : String)
    (h1 : ∀ c ∈ s.data.head?, c ∉ bad) (h2 : ∀ c ∈ s.data.getLast?, c ∉ bad) :
    stripChars bad s = s := by
  have hl : stripLeft bad s.data = s.data := by
    cases hd : s.data with
    | nil => rfl
    | cons a as =>
      rw [stripLeft, List.dropWhile_cons, if_neg]
      simp only [decide_eq_true_eq]
      apply h1
      rw [hd]
      simp
  have hr : stripRight bad s.data = s.data := by
    rw [stripRight]
    have hrl : stripLeft bad s.data.reverse = s.data.reverse := by
      cases hd : s.data.reverse with
      | nil => rfl
      | cons a as =>
        rw [stripLeft, List.dropWhile_cons, if_neg]
        simp only [decide_eq_true_eq]
        apply h2
        rw [Option.mem_def, ← List.head?_reverse, hd]
        simp
    rw [hrl, List.reverse_reverse]
  show (⟨stripRight bad (stripLeft bad s.data)⟩ : String) = s
  rw [hl, hr]

theorem mapSelf {α : Type} (f : α → α) :
    ∀ l : List α, (∀ c ∈ l, f c = c) → l.map f = l := by
  intro l
  induction l with
  | nil => intro _; rfl
  | cons a as ih =>
    intro h
    rw [List.map_cons, h a (List.mem_cons_self a as), ih (fun c hc => h c (List.mem_cons_of_mem a hc))]

theorem illegalChar_replaceIllegal (y : Char) : illegalChar (replaceIllegal y) = false := by
  rw [replaceIllegal]
  cases hb : illegalChar y with
  | true =>
    show illegalChar '_' = false
    decide
  | false => exact hb

theorem sanitize_no_illegal (s : String) :
    ∀ c ∈ (sanitize s).data, illegalChar c = false := by
  intro c hc
  obtain ⟨pre, suf, h1, _, _, _, _⟩ :=
    stripChars_decomp [' ', '.'] ⟨s.data.map replaceIllegal⟩
  have hmem : c ∈ s.data.map replaceIllegal := by
    rw [show (s.data.map replaceIllegal : List Char) =
      (⟨s.data.map replaceIllegal⟩ : String).data from rfl, h1]
    have : c ∈ (sanitize s).data := hc
    simp only [List.mem_append]
    exact Or.inl (Or.inr this)
  obtain ⟨y, _, hy⟩ := List.mem_map.1 hmem
  rw [← hy]
  exact illegalChar_replaceIllegal y

/-- C8 counterexample: the claim implies `sanitize " a" = " a"` (no illegal
characters, no trailing dots or spaces), but the code's `.strip(" .")` also
removes the leading space. -/
theorem sanitize_strips_leading : sanitize " a" = "a" ∧ " a" ≠ "a" := by decide

/-- C8 (amended): `sanitize` replaces each character of `<>:"/\|?*` and
each control character (U+0000-U+001F) with an underscore and trims both
leading and trailing dots and spaces, and nothing else; in particular
`sanitize "Week 1: Intro/Notes. " = "Week 1_ Intro_Notes"`. -/
theorem sanitize_spec :
    (∀ s : String, ∃ pre suf : List Char,
      s.data.map replaceIllegal = pre ++ (sanitize s).data ++ suf ∧
      (∀ c ∈ pre, c = ' ' ∨ c = '.') ∧ (∀ c ∈ suf, c = ' ' ∨ c = '.') ∧
      (∀ c ∈ (sanitize s).data.head?, ¬(c = ' ' ∨ c = '.')) ∧
      (∀ c ∈ (sanitize s).data.getLast?, ¬(c = ' ' ∨ c = '.'))) ∧
    sanitize "Week 1: Intro/Notes. " = "Week 1_ Intro_Notes" := by
  constructor
  · intro s
    obtain ⟨pre, suf, h1, h2, h3, h4, h5⟩ :=
      stripChars_decomp [' ', '.'] ⟨s.data.map replaceIllegal⟩
    refine ⟨pre, suf, h1, ?_, ?_, ?_, ?_⟩
    · intro c hc; simpa using h2 c hc
    · intro c hc; simpa using h3 c hc
    · intro c hc; simpa using h4 c hc
    · intro c hc; simpa using h5 c hc
  · decide

/-- Witness for C8 (extracting the concrete example from the theorem). -/
theorem sanitize_spec_witness : sanitize "Week 1: Intro/Notes. " = "Week 1_ Intro_Notes" :=
  sanitize_spec.2

/-- C10: `sanitize` never leaves an illegal character, is idempotent, and
may return the empty string, in which case the target path degenerates to
the module directory itself. -/
theorem sanitize_invariants :
    (∀ s : String, (∀ c ∈ (sanitize s).data, illegalChar c = false) ∧
      sanitize (sanitize s) = sanitize s) ∧
    sanitize " .. " = "" ∧ ∀ dir : String, targetPath dir (sanitize " .. ") = dir := by
  refine ⟨?_, by decide, ?_⟩
  · intro s
    refine ⟨sanitize_no_illegal s, ?_⟩
    have hmap : (sanitize s).data.map replaceIllegal = (sanitize s).data := by
      apply mapSelf
      intro c hc
      rw [replaceIllegal, if_neg (by rw [sanitize_no_illegal s c hc]; simp)]
    obtain ⟨pre, suf, _, _, _, h4, h5⟩ :=
      stripChars_decomp [' ', '.'] ⟨s.data.map replaceIllegal⟩
    show stripChars [' ', '.'] ⟨(sanitize s).data.map replaceIllegal⟩ = sanitize s
    rw [hmap]
    exact stripChars_no_strip [' ', '.'] (sanitize s) h4 h5
  · intro dir
    rw [show sanitize " .. " = "" from by decide, targetPath, if_pos rfl]

/-- Witness for C10 on concrete inputs. -/
theorem sanitize_invariants_witness :
    illegalChar '_' = false ∧ sanitize (sanitize "a<b") = sanitize "a<b" := by
  constructor
  · exact (sanitize_invariants.1 "a<b").1 '_' (by decide)
  · exact (sanitize_invariants.1 "a<b").2

/-! ## Selection parsing -/

theorem addChoice_inv (maxnum : Nat) {acc : List Int × List Int}
    (hI : ChoiceInv maxnum acc) (n : Int) : ChoiceInv maxnum (addChoice maxnum acc n) := by
  rw [addChoice]
  split_ifs with h
  · obtain ⟨h1, h2, h3⟩ := h
    obtain ⟨hn, hb⟩ := hI
    constructor
    · have hnotin : n ∉ acc.1 := fun hmem => h3 ((hb n hmem).2)
      rw [List.nodup_append]
      refine ⟨hn, List.nodup_singleton n, ?_⟩
      intro a ha han
      rw [List.mem_singleton] at han
      exact hnotin (han ▸ ha)
    · intro m hm
      rcases List.mem_append.1 hm with hm | hm
      · obtain ⟨hmb, hms⟩ := hb m hm
        exact ⟨hmb, List.mem_append_left _ hms⟩
      · rw [List.mem_singleton] at hm
        subst hm
        exact ⟨⟨h1, h2⟩, List.mem_append_right _ (List.mem_singleton_self m)⟩
  · exact hI

theorem foldl_addChoice_inv (maxnum : Nat) :
    ∀ (l : List Int) (acc : List Int × List Int), ChoiceInv maxnum acc →
      ChoiceInv maxnum (l.foldl (addChoice maxnum) acc) := by
  intro l
  induction l with
  | nil => intro acc h; exact h
  | cons a as ih =>
    intro acc h
    exact ih _ (addChoice_inv maxnum h a)

theorem choiceStep_inv (maxnum : Nat) (part : String) {acc : List Int × List Int}
    (hI : ChoiceInv maxnum acc) : ChoiceInv maxnum (choiceStep maxnum acc part) := by
  simp only [choiceStep]
  split
  · exact hI
  · split
    · split
      · exact foldl_addChoice_inv maxnum _ acc hI
      · exact hI
    · split
      · exact addChoice_inv maxnum hI _
      · exact hI

/-- C7: `parse_choices` on the spec's examples, plus: for every selection
string and bound, the result is duplicate-free and every returned number
lies in `[1, maxnum]` (out-of-range and non-numeric tokens are silently
dropped). -/
theorem parse_choices_spec :
    parse_choices "8,9,6" 9 = [8, 9, 6] ∧
    parse_choices "5-7" 9 = [5, 6, 7] ∧
    parse_choices "7-5" 9 = [5, 6, 7] ∧
    parse_choices "abc" 5 = [] ∧
    parse_choices "0,3,12,x,3" 9 = [3] ∧
    ∀ (raw : String) (maxnum : Nat),
      (parse_choices raw maxnum).Nodup ∧
      ∀ n ∈ parse_choices raw maxnum, 1 ≤ n ∧ n ≤ (maxnum : Int) := by
  refine ⟨by decide, by decide, by decide, by decide, by decide, ?_⟩
  intro raw maxnum
  have hinv : ChoiceInv maxnum ((pySplit ',' raw).foldl (choiceStep maxnum) ([], [])) := by
    have hgen : ∀ (parts : List String) (acc : List Int × List Int), ChoiceInv maxnum acc →
        ChoiceInv maxnum (parts.foldl (choiceStep maxnum) acc) := by
      intro parts
      induction parts with
      | nil => intro acc h; exact h
      | cons p ps ih => intro acc h; exact ih _ (choiceStep_inv maxnum p h)
    exact hgen _ _ ⟨List.nodup_nil, by simp⟩
  obtain ⟨hn, hb⟩ := hinv
  exact ⟨hn, fun n hm => (hb n hm).1⟩

/-- Witness for C7: the general bounds applied at a concrete element. -/
theorem parse_choices_spec_witness :
    (parse_choices "8,9,6" 9).Nodup ∧ (1 ≤ (8 : Int) ∧ (8 : Int) ≤ (9 : Nat)) := by
  refine ⟨(parse_choices_spec.2.2.2.2.2 "8,9,6" 9).1, ?_⟩
  exact (parse_choices_spec.2.2.2.2.2 "8,9,6" 9).2 8 (by decide)

/-! ## Harvesting -/

/-- C1: the end-to-end scenario (File item 501, a Page whose body embeds
`/files/502` and `/api/v1/files/503`, an Assignment with attachment 504)
yields exactly `{501, 502, 503, 504}`; the three strategies produce
`{501}`, `{502, 503}` and `{504}`, and all six union orders of those three
sets give the same final set. -/
theorem harvest_end_to_end :
    harvest env1 items1 = .ok {501, 502, 503, 504} ∧
    harvestFiles items1 = {501} ∧
    harvestPages env1 items1 = .ok {502, 503} ∧
    harvestAssignments env1 items1 = .ok {504} ∧
    ({501} ∪ {502, 503} ∪ {504} : Finset Nat) = {501, 502, 503, 504} ∧
    ({501} ∪ {504} ∪ {502, 503} : Finset Nat) = {501, 502, 503, 504} ∧
    ({502, 503} ∪ {501} ∪ {504} : Finset Nat) = {501, 502, 503, 504} ∧
    ({502, 503} ∪ {504} ∪ {501} : Finset Nat) = {501, 502, 503, 504} ∧
    ({504} ∪ {501} ∪ {502, 503} : Finset Nat) = {501, 502, 503, 504} ∧
    ({504} ∪ {502, 503} ∪ {501} : Finset Nat) = {501, 502, 503, 504} := by
  decide

/-! ## Downloader -/

/-- C6: on a 429 first response, `download_to` sleeps for the parsed
`Retry-After` value (3 when the header is absent, since `getD "3"`), issues
exactly one fresh request (two requests total), and either streams the
second response's bytes to the target or propagates its HTTP error with no
further per-call retry. -/
theorem download_to_429 (env : Nat → DlResp) (v : Int)
    (h429 : (env 0).status = 429)
    (hv : pyInt? (((env 0).retryAfter).getD "3") = some v) (hnn : 0 ≤ v) :
    download_to env = ⟨[v], 2,
      if raisesFor (env 1).status then .error (.httpStatus (env 1).status)
      else .ok (writtenBytes (env 1).chunks)⟩ := by
  simp only [download_to, h429, hv, if_true]
  rw [if_neg (show ¬ v < 0 by omega)]
  by_cases hr : raisesFor (env 1).status
  · rw [if_pos hr, if_pos hr]
  · rw [if_neg hr, if_neg hr]

/-- Witness for C6: `Retry-After: 7`, second response succeeds. -/
theorem download_to_429_witness : download_to env6 = ⟨[7], 2, .ok [4, 5]⟩ := by
  have h := download_to_429 env6 7 (by decide) (by decide) (by decide)
  rw [h]
  decide

/-- C4: when metadata resolution succeeds (status < 400) and yields a
truthy download URL `u`, the file is skipped if and only if the target path
exists, the reported size is nonzero, and the local byte length equals it;
in every other case a download of `u` to that same target path is attempted
(it either succeeds or fails), i.e. the file is re-downloaded in place. -/
theorem skip_rule (env : Env) (fs : String → Option Nat) (dir : String) (fid : Nat)
    (u : String)
    (hok : (env.fileMeta fid).status < 400)
    (hurl : pyOrStr (env.fileMeta fid).url (env.fileMeta fid).download_url = some u)
    (hu : u ≠ "") :
    (processFid env fs dir fid = .ok .skipped ↔
      ((fs (metaTarget dir (env.fileMeta fid) fid)).isSome ∧
        (env.fileMeta fid).size.getD 0 ≠ 0 ∧
        fs (metaTarget dir (env.fileMeta fid) fid) =
          some ((env.fileMeta fid).size.getD 0))) ∧
    (¬((fs (metaTarget dir (env.fileMeta fid) fid)).isSome ∧
        (env.fileMeta fid).size.getD 0 ≠ 0 ∧
        fs (metaTarget dir (env.fileMeta fid) fid) =
          some ((env.fileMeta fid).size.getD 0)) →
      processFid env fs dir fid =
          .ok (.downloaded u (metaTarget dir (env.fileMeta fid) fid)) ∨
        processFid env fs dir fid =
          .ok (.failed u (metaTarget dir (env.fileMeta fid) fid))) := by
  have h403 : ¬((env.fileMeta fid).status = 403) := by omega
  have hrf : ¬ raisesFor (env.fileMeta fid).status := by rw [raisesFor]; omega
  have hpf : processFid env fs dir fid =
      (if (fs (metaTarget dir (env.fileMeta fid) fid)).isSome ∧
          (env.fileMeta fid).size.getD 0 ≠ 0 ∧
          fs (metaTarget dir (env.fileMeta fid) fid) = some ((env.fileMeta fid).size.getD 0)
        then .ok .skipped
        else if env.dl u (metaTarget dir (env.fileMeta fid) fid) then
          .ok (.downloaded u (metaTarget dir (env.fileMeta fid) fid))
        else .ok (.failed u (metaTarget dir (env.fileMeta fid) fid))) := by
    simp only [processFid, if_neg h403, if_neg hrf, hurl, if_neg hu]
  rw [hpf]
  by_cases hskip : ((fs (metaTarget dir (env.fileMeta fid) fid)).isSome ∧
      (env.fileMeta fid).size.getD 0 ≠ 0 ∧
      fs (metaTarget dir (env.fileMeta fid) fid) = some ((env.fileMeta fid).size.getD 0))
  · rw [if_pos hskip]
    exact ⟨⟨fun _ => hskip, fun _ => rfl⟩, fun h => absurd hskip h⟩
  · rw [if_neg hskip]
    constructor
    · constructor
      · intro h
        by_cases hdl : env.dl u (metaTarget dir (env.fileMeta fid) fid) = true
        · rw [if_pos hdl] at h; simp at h
        · rw [if_neg hdl] at h; simp at h
      · intro h; exact absurd h hskip
    · intro _
      by_cases hdl : env.dl u (metaTarget dir (env.fileMeta fid) fid) = true
      · left; rw [if_pos hdl]
      · right; rw [if_neg hdl]

/-- Witness for C4: an existing local file whose length matches the
reported size is skipped. -/
theorem skip_rule_witness : processFid env4 fs4 "d" 1 = .ok .skipped := by
  exact (skip_rule env4 fs4 "d" 1 "http://h/r" (by decide) (by decide) (by decide)).1.mpr
    (by decide)

/-! ## Error isolation -/

theorem fileLoop_append (env : Env) (fs : String → Option Nat) (dir : String) :
    ∀ (l₁ l₂ : List Nat) (d s : Nat),
      fileLoop env fs dir (l₁ ++ l₂) d s =
        match fileLoop env fs dir l₁ d s with
        | .error e => .error e
        | .ok p => fileLoop env fs dir l₂ p.1 p.2 := by
  intro l₁
  induction l₁ with
  | nil => intro l₂ d s; rfl
  | cons fid rest ih =>
    intro l₂ d s
    rw [List.cons_append]
    simp only [fileLoop]
    cases hp : processFid env fs dir fid with
    | error st => rfl
    | ok oc =>
      cases oc with
      | downloaded u t => exact ih l₂ (d + 1) s
      | skipped => exact ih l₂ d (s + 1)
      | meta403 => exact ih l₂ d s
      | noUrl => exact ih l₂ d s
      | failed u t => exact ih l₂ d s

theorem fileLoop_shift (env : Env) (fs : String → Option Nat) (dir : String) :
    ∀ (l : List Nat) (d s : Nat),
      fileLoop env fs dir l d s =
        (fileLoop env fs dir l 0 0).map (fun p => (d + p.1, s + p.2)) := by
  intro l
  induction l with
  | nil =>
    intro d s
    simp [fileLoop, Except.map]
  | cons fid rest ih =>
    intro d s
    simp only [fileLoop]
    cases hp : processFid env fs dir fid with
    | error st => simp [Except.map]
    | ok oc =>
      cases oc with
      | downloaded u t =>
        rw [ih (d + 1) s, ih 1 0]
        cases hx : fileLoop env fs dir rest 0 0 with
        | error e => rfl
        | ok p =>
          simp only [Except.map, Except.ok.injEq, Prod.mk.injEq]
          omega
      | skipped =>
        rw [ih d (s + 1), ih 0 1]
        cases hx : fileLoop env fs dir rest 0 0 with
        | error e => rfl
        | ok p =>
          simp only [Except.map, Except.ok.injEq, Prod.mk.injEq]
          omega
      | meta403 => exact ih d s
      | noUrl => exact ih d s
      | failed u t => exact ih d s

/-- C5 (amended): a `requests` exception during one individual file's
download is caught — the file counts as neither downloaded nor skipped and
the remaining files are still processed to completion (first conjunct) —
but an error scoped to one module's harvesting (such as a non-403 error
fetching a page or assignment) is NOT caught: it aborts the whole run,
so the remaining selected modules are never processed (second conjunct). -/
theorem download_error_isolation :
    (∀ (env : Env) (fs : String → Option Nat) (dir : String)
      (pre : List Nat) (bad : Nat) (post : List Nat) (d₁ s₁ d₂ s₂ : Nat) (u t : String),
      fileLoop env fs dir pre 0 0 = .ok (d₁, s₁) →
      processFid env fs dir bad = .ok (.failed u t) →
      fileLoop env fs dir post 0 0 = .ok (d₂, s₂) →
      fileLoop env fs dir (pre ++ bad :: post) 0 0 = .ok (d₁ + d₂, s₁ + s₂)) ∧
    (∀ (env : Env) (fs : String → Option Nat) (dir : String) (items : List MItem)
      (rest : List (String × List MItem)) (st : Nat),
      harvest env items = .error st →
      runModules env fs ((dir, items) :: rest) 0 0 = .error st) := by
  constructor
  · intro env fs dir pre bad post d₁ s₁ d₂ s₂ u t h1 h2 h3
    rw [fileLoop_append env fs dir pre (bad :: post) 0 0, h1]
    show fileLoop env fs dir (bad :: post) d₁ s₁ = .ok (d₁ + d₂, s₁ + s₂)
    simp only [fileLoop]
    rw [h2]
    show fileLoop env fs dir post d₁ s₁ = .ok (d₁ + d₂, s₁ + s₂)
    rw [fileLoop_shift env fs dir post d₁ s₁, h3]
    rfl
  · intro env fs dir items rest st h
    have hm : runModule env fs dir items = .error st := by
      show (harvest env items >>= fun ids => fileLoop env fs dir (sortedIds ids) 0 0) =
        .error st
      rw [h]
      rfl
    simp only [runModules]
    rw [hm]

/-- Witness for C5: file 2's download raises a requests exception; files 1
and 3 around it still download, and the grand counts exclude file 2. -/
theorem download_error_isolation_witness :
    fileLoop envW fsW "d" ([1] ++ 2 :: [3]) 0 0 = .ok (1 + 1, 0 + 0) := by
  exact download_error_isolation.1 envW fsW "d" [1] 2 [3] 1 0 1 0
    "http://h/2" "d/f2.txt" (by decide) (by decide) (by decide)

/-- C5 counterexample: with two selected modules, a 500 answer on the first
module's page fetch aborts the whole run — the claim's "never prevents the
remaining selected modules from being processed to completion" fails —
while the second module alone would complete with one download. -/
theorem module_error_aborts_run :
    runModules env5 fs5 [("m1", [.page (some "p1")]), ("m2", [.file (some 7)])] 0 0 =
      .error 500 ∧
    runModules env5 fs5 [("m2", [.file (some 7)])] 0 0 = .ok (1, 0) := by
  constructor
  · decide
  · decide

end CanvasGrabber
